import Mathlib

/-!
Verification of the `web-processor` library (`src/tools/web-processor/src/lib.rs`).

Strings are modelled as `List Char` (byte buffers as `List Nat`), and the
external collaborators of the core (the YAML parser `serde_yaml::from_str`,
the markdown renderer `pulldown_cmark`, and the wall-clock source
`js_sys::Date`) are passed in as explicit function parameters, as the design
notes of the system prescribe.  Whitespace classes and case mapping are
modelled on their ASCII fragment, which is the fragment exercised by every
delimiter, heading marker and slug character the library manipulates.
-/

/-- ASCII fragment of the whitespace class used both by the `\s` class of the
Rust regex crate and by `char::is_whitespace` / `str::trim`. -/
def isWs (c : Char) : Bool :=
  c = ' ' || c = '\t' || c = '\n' || c = '\r' || c = '\x0b' || c = '\x0c'

/-- ASCII lowercasing, the fragment of `str::to_lowercase` the library uses. -/
def toLowercase (l : List Char) : List Char := l.map Char.toLower

/-- Remove leading whitespace, as the leading half of `str::trim`. -/
def trimStart (l : List Char) : List Char := l.dropWhile isWs

/-- Remove trailing whitespace, as the trailing half of `str::trim`. -/
def trimEnd (l : List Char) : List Char := (l.reverse.dropWhile isWs).reverse

/-- Model of `str::trim`: remove leading and trailing whitespace. -/
def rustTrim (l : List Char) : List Char := trimEnd (trimStart l)

/-- Model of `str::lines`: split at `\n` or `\r\n`, the final line ending optional. -/
def rustLines : List Char → List (List Char)
  | [] => []
  | '\r' :: '\n' :: rest => [] :: rustLines rest
  | '\n' :: rest => [] :: rustLines rest
  | c :: rest =>
    match rustLines rest with
    | [] => [[c]]
    | l :: ls => (c :: l) :: ls

/-- Model of `Vec::join("\n")`. -/
def joinNl : List (List Char) → List Char
  | [] => []
  | [l] => l
  | l :: ls => l ++ '\n' :: joinNl ls

/-- Model of `str::find` for a literal pattern: index of the first occurrence of
`needle` as a contiguous sub-list, if any. -/
def findSub (needle : List Char) : List Char → Option Nat
  | [] => if needle.isPrefixOf [] then some 0 else none
  | c :: t => if needle.isPrefixOf (c :: t) then some 0 else (findSub needle t).map (· + 1)

/-! ## The frontmatter regex

`parse_frontmatter` matches `^---\s*\n([\s\S]*?)\n---\s*\n([\s\S]*)$` against
the document.  The functions below are a direct operational reading of that
pattern under the regex crate's leftmost, greedy-`\s*` / lazy-group
backtracking semantics:

* `matchWsNl l` returns every way of matching `\s*\n` against a prefix of
  `l` (the list of remainders), longest whitespace run first, which is the
  order a greedy `\s*` followed by `\n` explores;
* `findClose l` implements the lazy group `([\s\S]*?)\n---\s*\n`: it looks
  for the closest position at which `\n---\s*\n` matches, returning the
  group's capture and the remainder after the greedy `\s*\n` of the closing
  delimiter (the trailing `([\s\S]*)$` always succeeds, so the first
  successful close is final);
* `fmMatch` anchors `---` at the start and tries the opening `\s*\n`
  candidates in greedy order.
-/

/-- All matches of `\s*\n` against a prefix of the input, greedy order:
each returned list is the remainder after the consumed prefix. -/
def matchWsNl : List Char → List (List Char)
  | [] => []
  | c :: rest =>
    if c = '\n' then matchWsNl rest ++ [rest]
    else if isWs c then matchWsNl rest
    else []

/-- The closing delimiter `\n---` as a character sequence. -/
def nlDashes : List Char := ['\n', '-', '-', '-']

/-- Try to match `\n---\s*\n` at the current position; on success return the
remainder after the (greedy) `\s*\n`. -/
def tryCloseHere (l : List Char) : Option (List Char) :=
  if nlDashes.isPrefixOf l then (matchWsNl (l.drop 4)).head? else none

/-- The lazy group: find the nearest closing delimiter, returning the
captured group and the text after the closing delimiter line. -/
def findClose : List Char → Option (List Char × List Char)
  | [] => none
  | c :: rest =>
    match tryCloseHere (c :: rest) with
    | some body => some ([], body)
    | none =>
      match findClose rest with
      | some p => some (c :: p.1, p.2)
      | none => none

/-- Try the greedy opening candidates in order; first successful close wins. -/
def firstClose : List (List Char) → Option (List Char × List Char)
  | [] => none
  | l :: ls =>
    match findClose l with
    | some p => some p
    | none => firstClose ls

/-- The full frontmatter regex: on success, `(capture group 1, capture
group 2)`, i.e. the enclosed metadata block and the body. -/
def fmMatch : List Char → Option (List Char × List Char)
  | '-' :: '-' :: '-' :: rest => firstClose (matchWsNl rest)
  | _ => none

/-! ## Data model (`Author`, `PaperMetadata`, `Paper`) -/

/-- Model of `serde_json::Value`, the untyped passthrough value of the metadata map. -/
inductive JsonValue where
  | null : JsonValue
  | bool (b : Bool) : JsonValue
  | num (n : Int) : JsonValue
  | str (s : List Char) : JsonValue
  | arr (elems : List JsonValue) : JsonValue
  | obj (fields : List (List Char × JsonValue)) : JsonValue

structure Author where
  name : List Char
  affiliation : Option (List Char)

structure PaperMetadata where
  title : Option (List Char)
  authors : Option (List Author)
  tags : Option (List (List Char))
  status : Option (List Char)
  last_updated : Option (List Char)
  toc : Option (List (List Char))
  extra : List (List Char × JsonValue)

structure Paper where
  title : List Char
  slug : List Char
  filename : List Char
  summary : List Char
  abstract_text : List Char
  toc : List (List Char)
  content : List Char
  html : List Char
  last_updated : List Char
  authors : List Author
  tags : Option (List (List Char))
  status : Option (List Char)
  extra : List (List Char × JsonValue)

/-- The `PaperMetadata` value built in the no-frontmatter branch: every
field absent, empty passthrough map. -/
def emptyPaperMetadata : PaperMetadata :=
  { title := none, authors := none, tags := none, status := none,
    last_updated := none, toc := none, extra := [] }

/-- The diagnostic emitted when no frontmatter block is detected. -/
def noFrontmatterMsg : List Char :=
  ("No frontmatter found in content. This will cause issues in the web interface.").data

/-- The function `parse_frontmatter`, parameterised over the YAML parser collaborator
(`serde_yaml::from_str`).  Returns the parsing outcome together with the
list of diagnostics sent to the logging sink. -/
def parse_frontmatter (yamlParse : List Char → Except (List Char) PaperMetadata)
    (content : List Char) :
    Except (List Char) (PaperMetadata × List Char) × List (List Char) :=
  match fmMatch content with
  | some (yamlContent, markdownContent) =>
    (match yamlParse yamlContent with
     | Except.ok metadata => Except.ok (metadata, markdownContent)
     | Except.error e => Except.error e, [])
  | none => (Except.ok (emptyPaperMetadata, content), [noFrontmatterMsg])

/-! ## Section extraction (`parse_markdown_sections`)

The `HashMap<String, String>` of the source is modelled as an association
list with unique keys; `mapInsert` replaces the binding of an existing key,
exactly as `HashMap::insert` does, and `mapGet` is `HashMap::get`. -/

/-- Model of `line.starts_with("## ")`. -/
def isHeadingLine (l : List Char) : Bool := (['#', '#', ' ']).isPrefixOf l

/-- Model of `HashMap::insert`: replace any existing binding of `k`. -/
def mapInsert (k v : List Char) (m : List (List Char × List Char)) :
    List (List Char × List Char) :=
  m.filter (fun p => !(p.1 == k)) ++ [(k, v)]

/-- Model of `HashMap::get`. -/
def mapGet (m : List (List Char × List Char)) (k : List Char) : Option (List Char) :=
  (m.find? (fun p => p.1 == k)).map (fun p => p.2)

/-- Save the current section, if one is open: join its lines with `"\n"`,
trim, and insert under the section key. -/
def flushSection (cur : Option (List Char)) (content : List (List Char))
    (acc : List (List Char × List Char)) : List (List Char × List Char) :=
  match cur with
  | some k => mapInsert k (rustTrim (joinNl content)) acc
  | none => acc

/-- The line loop of `parse_markdown_sections`: `cur` is
`current_section`, `content` is `current_content`, `acc` the map so far. -/
def sectionsGo : List (List Char) → Option (List Char) → List (List Char) →
    List (List Char × List Char) → List (List Char × List Char)
  | [], cur, content, acc => flushSection cur content acc
  | line :: rest, cur, content, acc =>
    if isHeadingLine line then
      sectionsGo rest (some (toLowercase (line.drop 3))) [] (flushSection cur content acc)
    else
      match cur with
      | some _ => sectionsGo rest cur (content ++ [line]) acc
      | none => sectionsGo rest cur content acc

/-- The function `parse_markdown_sections`. -/
def parse_markdown_sections (markdown : List Char) : List (List Char × List Char) :=
  sectionsGo (rustLines markdown) none [] []

/-! ## TOC extraction (`extract_toc`) -/

/-- Match the item regex `^\d+\.\s+\*\*(.*?)\*\*` against one line and
return capture 1: a maximal nonempty digit run, a literal dot, a maximal
nonempty whitespace run, `**`, then a lazy capture up to the first
following `**`. -/
def tocItem (line : List Char) : Option (List Char) :=
  let ds := line.takeWhile Char.isDigit
  if ds.isEmpty then none
  else
    match line.drop ds.length with
    | '.' :: rest =>
      let ws := rest.takeWhile isWs
      if ws.isEmpty then none
      else
        match rest.drop ws.length with
        | '*' :: '*' :: rest2 => (findSub ['*', '*'] rest2).map (fun i => rest2.take i)
        | _ => none
    | _ => none

/-- The function `extract_toc`: locate `"## Table of Contents"`, cut the window at the
next `"\n## "` (or end of text), and collect the matching item lines. -/
def extract_toc (markdown : List Char) : List (List Char) :=
  match findSub (("## Table of Contents").data) markdown with
  | some start =>
    let afterToc := markdown.drop start
    let stop := (findSub (("\n## ").data) afterToc).getD afterToc.length
    let tocSection := afterToc.take stop
    (rustLines tocSection).filterMap tocItem
  | none => []

/-! ## Rendering post-processing (`markdown_to_html`)

`pulldown_cmark` is an external collaborator, passed in as `render`; the
embedded part is the heading-anchor injection
`Regex::new(r"<h(\d)>([^<]+)</h\d>").replace_all(...)`. -/

/-- The characters deleted by slug derivation. -/
def slugStrip : List Char :=
  ['!', '?', ':', ';', ',', '.', '"', '\x27', '(', ')', '[', ']', '\x7b', '\x7d']

/-- Slug derivation applied to a heading text:
`text.to_lowercase().replace(" ", "-").replace(&[...], "")`. -/
def slugify (text : List Char) : List Char :=
  ((toLowercase text).map (fun c => if c = ' ' then '-' else c)).filter
    (fun c => !(slugStrip.contains c))

/-- Match `<h(\d)>([^<]+)</h\d>` at the head of the input; on success
return (opening digit, heading text, remainder after the match).  The
greedy `[^<]+` is the maximal nonempty run of characters other than `<`. -/
def matchHeading (l : List Char) : Option (Char × List Char × List Char) :=
  match l with
  | a :: b :: d :: g :: rest =>
    if a = '<' ∧ b = 'h' ∧ g = '>' ∧ d.isDigit then
      let text := rest.takeWhile (fun ch => ch != '<')
      if text.isEmpty then none
      else
        match rest.drop text.length with
        | e :: f :: g2 :: d2 :: i :: after =>
          if e = '<' ∧ f = '/' ∧ g2 = 'h' ∧ i = '>' ∧ d2.isDigit then
            some (d, text, after)
          else none
        | _ => none
    else none
  | _ => none

/-- The replacement `format!("<h{} id=\"{}\">{}</h{}>", level, id, text, level)`. -/
def headingRepl (d : Char) (text : List Char) : List Char :=
  ("<h").data ++ [d] ++ (" id=\"").data ++ slugify text ++ ("\">").data ++ text
    ++ ("</h").data ++ [d] ++ (">").data

/-- The `replace_all` scan, with an explicit step bound: at each position try
the heading pattern; on a match emit the replacement and continue after
the match, otherwise copy one character.  One character or more is
consumed per step, so `l.length` steps always suffice (the fuel-exhausted
branch is unreachable for the bound `addHeadingIds` supplies). -/
def addGo : Nat → List Char → List Char
  | _, [] => []
  | 0, c :: rest => c :: rest
  | fuel + 1, c :: rest =>
    match matchHeading (c :: rest) with
    | some (d, text, after) => headingRepl d text ++ addGo fuel after
    | none => c :: addGo fuel rest

/-- The heading-anchor post-processing pass over rendered output. -/
def addHeadingIds (l : List Char) : List Char := addGo l.length l

/-- The function `markdown_to_html`, parameterised over the `pulldown_cmark` rendering
collaborator (extended mode: strikethrough, tables, footnotes, tasklists). -/
def markdown_to_html (render : List Char → List Char) (markdown : List Char) : List Char :=
  addHeadingIds (render markdown)

/-! ## Record assembly (`process_single_paper`, `process_paper`) -/

/-- Model of `str::strip_suffix(suffix).unwrap_or(original)`. -/
def stripSuffix (suffix l : List Char) : List Char :=
  if suffix.isSuffixOf l then l.take (l.length - suffix.length) else l

/-- The missing-title diagnostic. -/
def titleWarnMsg (filename : List Char) : List Char :=
  ("WARNING: Paper ").data ++ filename ++ (" is missing a title in frontmatter!").data

/-- The function `process_single_paper`, parameterised over the YAML parser, the
markdown renderer and the injected current-timestamp string `now`
(`js_sys::Date::new_0().to_iso_string()`).  Returns the outcome and the
diagnostics sent to the logging sink. -/
def process_single_paper (yamlParse : List Char → Except (List Char) PaperMetadata)
    (render : List Char → List Char) (now : List Char)
    (filename content : List Char) : Except (List Char) Paper × List (List Char) :=
  match parse_frontmatter yamlParse content with
  | (Except.error e, logs) => (Except.error e, logs)
  | (Except.ok (metadata, markdown), logs) =>
    let sections := parse_markdown_sections markdown
    let toc := extract_toc markdown
    let slug := stripSuffix ((".md").data) filename
    let logs2 := logs ++ (if metadata.title = none then [titleWarnMsg filename] else [])
    (Except.ok
      { title := metadata.title.getD slug
        slug := slug
        filename := filename
        summary := (mapGet sections (("summary").data)).getD (("No summary available").data)
        abstract_text := (mapGet sections (("abstract").data)).getD []
        toc := if toc = [] then metadata.toc.getD [] else toc
        content := markdown
        html := markdown_to_html render markdown
        last_updated := metadata.last_updated.getD now
        authors := metadata.authors.getD []
        tags := metadata.tags
        status := metadata.status
        extra := metadata.extra }, logs2)

/-- The error returned by `process_paper`:
`format!("Failed to process paper: {}", e)`. -/
def processErrMsg (e : List Char) : List Char := ("Failed to process paper: ").data ++ e

/-- The error diagnostic logged by `process_paper`:
`format!("Error processing {}: {}", filename, e)`. -/
def processLogMsg (filename e : List Char) : List Char :=
  ("Error processing ").data ++ filename ++ (": ").data ++ e

/-- Model of `PaperProcessor::process_paper`: on success push the record onto the
collection; on failure leave the collection unchanged, log, and surface
the error.  Returns (outcome, new collection, diagnostics). -/
def process_paper (yamlParse : List Char → Except (List Char) PaperMetadata)
    (render : List Char → List Char) (now : List Char) (papers : List Paper)
    (filename content : List Char) :
    Except (List Char) Unit × List Paper × List (List Char) :=
  match process_single_paper yamlParse render now filename content with
  | (Except.ok paper, logs) => (Except.ok (), papers ++ [paper], logs)
  | (Except.error e, logs) =>
    (Except.error (processErrMsg e), papers, logs ++ [processLogMsg filename e])

/-! ## The archive reader (`process_tar_archive`)

Byte buffers are `List Nat` (each element one byte).  The crate is built
for the wasm32 target (`wasm_bindgen`/`js_sys`), where `usize` is 32 bits,
while the size field decodes into a `u64` that can hold up to
`8^12 - 1 > 2^32`.  The cursor arithmetic of the source therefore
truncates and wraps: `size as usize` and `padded_size as usize` are
`u64 -> u32` truncations, and `offset + 512`, `offset + size as usize`,
`offset += padded_size as usize` are `u32` additions, which under the
release profile wrap (two's complement); a debug build would panic at the
first wrapping addition instead, aborting even earlier.  Slice expressions
`&tar_data[a..b]` panic when `a > b` (with `b <= len` already checked by
the preceding guard or bound test).  The loop can genuinely diverge (a
declared padded size of `2^32 - 512` wraps the cursor back onto the same
header), so `tarGo` indexes the run by an iteration bound and reports one
of three outcomes: normal stop, panic, or bound exhausted with the loop
still running. -/

/-- The modulus of `usize` arithmetic on the crate's wasm32 target. -/
def U32 : Nat := 4294967296

/-- Wrapping 32-bit arithmetic: the value a `usize` computation takes
under the release profile. -/
def wrap32 (n : Nat) : Nat := n % U32

/-- Outcome of a bounded run of the scan loop: normal termination (guard
failed or terminator block), a slice-index panic, or iteration bound
exhausted with the loop still running. -/
inductive TarOutcome where
  | done : TarOutcome
  | panicked : TarOutcome
  | running : TarOutcome
deriving DecidableEq

/-- Is the 512-byte block all zero? -/
def bytesAllZero (l : List Nat) : Bool := l.all (fun b => b == 0)

/-- Accumulating octal-digit evaluation: every byte must be `'0'..'7'`. -/
def octVal (acc : Nat) : List Nat → Option Nat
  | [] => some acc
  | b :: rest => if 48 ≤ b ∧ b ≤ 55 then octVal (acc * 8 + (b - 48)) rest else none

/-- Model of `u64::from_str_radix(s, 8)` on the lossily-decoded size
field: an optional leading `+`, then a nonempty run of octal digits;
anything else (including the empty string) is a parse error.  (The field
is at most 12 bytes, so the `u64` range is never exceeded and the decoded
value is exact — the 32-bit truncation happens only at the later
`as usize` casts.) -/
def rustFromStrRadix8 : List Nat → Option Nat
  | [] => none
  | b :: rest =>
    if b = 43 then
      match rest with
      | [] => none
      | _ :: _ => octVal 0 rest
    else octVal 0 (b :: rest)

/-- Decode the name: first 100 bytes, cut at the first NUL (or all 100). -/
def tarFilename (header : List Nat) : List Nat :=
  let filenameBytes := header.take 100
  filenameBytes.take ((filenameBytes.findIdx? (fun b => b == 0)).getD 100)

/-- The size field: bytes 124..136, cut at the first NUL or space. -/
def tarSizeField (header : List Nat) : List Nat :=
  let sizeBytes := (header.drop 124).take 12
  sizeBytes.take ((sizeBytes.findIdx? (fun b => b == 0 || b == 32)).getD 12)

/-- The decoded size (`u64`): an unparsable or empty field counts as zero. -/
def tarSize (header : List Nat) : Nat := (rustFromStrRadix8 (tarSizeField header)).getD 0

/-- The padding rule `((size + 511) / 512) * 512` in `u64` (exact: the
size is below `2^36`, so no `u64` overflow). -/
def tarPaddedSize (size : Nat) : Nat := ((size + 511) / 512) * 512

/-- Model of `filename.ends_with(".md")` on the lossily-decoded name: the
byte list ends with the bytes of `".md"`. -/
def mdSuffix (filename : List Nat) : Bool := ([46, 109, 100]).isSuffixOf filename

/-- The scan loop of `process_tar_archive` with an explicit iteration
bound, under wasm32 release semantics: the guard compares the wrapped
`offset + 512` against the length (a wrapped guard value that still
passes makes the header slice panic, since its start then exceeds its
end); the content end `offset + size as usize` and the cursor advance
`offset += padded_size as usize` truncate the `u64` values to 32 bits and
wrap.  The extracted content is the slice between the post-header cursor
and the wrapped content end — equal to the declared size only when no
truncation occurred. -/
def tarGo (td : List Nat) : Nat → Nat → List (List Nat × List Nat) × TarOutcome
  | 0, _ => ([], TarOutcome.running)
  | fuel + 1, offset =>
    if wrap32 (offset + 512) ≤ td.length then
      if wrap32 (offset + 512) < offset then ([], TarOutcome.panicked)
      else
        let header := (td.drop offset).take 512
        if bytesAllZero header then ([], TarOutcome.done)
        else
          let filename := tarFilename header
          let size := tarSize header
          if 0 < size ∧ mdSuffix filename = true then
            let contentEnd := wrap32 (offset + 512 + wrap32 size)
            if contentEnd ≤ td.length then
              if contentEnd < offset + 512 then ([], TarOutcome.panicked)
              else
                let r := tarGo td fuel (wrap32 (offset + 512 + wrap32 (tarPaddedSize size)))
                ((filename, (td.drop (offset + 512)).take (contentEnd - (offset + 512))) :: r.1,
                  r.2)
            else tarGo td fuel (wrap32 (offset + 512 + wrap32 (tarPaddedSize size)))
          else tarGo td fuel (wrap32 (offset + 512 + wrap32 (tarPaddedSize size)))
    else ([], TarOutcome.done)

/-- The function `process_tar_archive`, indexed by an iteration bound
(the loop has no intrinsic bound and can diverge, see the termination
claim). -/
def process_tar_archive (td : List Nat) (fuel : Nat) : List (List Nat × List Nat) × TarOutcome :=
  tarGo td fuel 0

/-! ## Concrete inputs used by witnesses and counterexamples -/

/-- The UTF-8/ASCII bytes of a string. -/
def strBytes (s : List Char) : List Nat := s.map Char.toNat

/-- The body of the spec's TOC-extraction example. -/
def c4body : List Char :=
  ("## Table of Contents\n1. **Intro**\n2. **Methods**\n## Summary\nHello").data

/-- A flattened-sections decomposition: each section's heading line
followed by its content lines. -/
def secFlatten (secs : List (List Char × List (List Char))) : List (List Char) :=
  (secs.map (fun s => ('#' :: '#' :: ' ' :: s.1) :: s.2)).flatten

/-- A markdown body with a preamble line and a duplicated heading. -/
def c3md : List Char := ("intro\n## Alpha\nline1\n\nline2\n## Alpha\nlater").data

/-- Rendered output whose heading holds inline markup: the id-injection
regex requires `[^<]+` and does not match it. -/
def c5badHtml : List Char := ("<h2><em>foo</em></h2>").data

/-- The YAML collaborator used by the record-assembly witness (never
consulted: the witness document has no frontmatter). -/
def c6yaml : List Char → Except (List Char) PaperMetadata := fun _ => Except.error []

def c6content : List Char := ("## Summary\nhi").data

/-- The record assembled for `("a.md", c6content)` with an empty renderer
and injected timestamp `"T"`. -/
def c6paper : Paper :=
  { title := ("a").data
    slug := ("a").data
    filename := ("a.md").data
    summary := ("hi").data
    abstract_text := []
    toc := []
    content := c6content
    html := []
    last_updated := ("T").data
    authors := []
    tags := none
    status := none
    extra := [] }

/-- An archive buffer: one all-zero terminator block followed by further
nonzero bytes. -/
def tarC7buf : List Nat := List.replicate 512 0 ++ List.replicate 8 65

/-- A 100-byte name field. -/
def tarName (s : List Nat) : List Nat := s ++ List.replicate (100 - s.length) 0

/-- A 512-byte header with the given name and 12-byte size field. -/
def tarHeader (name sizeField : List Nat) : List Nat :=
  tarName name ++ List.replicate 24 0 ++ sizeField ++ List.replicate 376 0

/-- Size field `"12"` (octal) = 10, NUL padded to 12 bytes. -/
def sizeField10 : List Nat := [49, 50] ++ List.replicate 10 0

/-- A non-`.md` entry of size 10 (content padded to 512 bytes). -/
def txtEntry : List Nat :=
  tarHeader (strBytes (("notes.txt").data)) sizeField10
    ++ List.replicate 10 88 ++ List.replicate 502 0

/-- A `.md` entry of size 10 with content `"0123456789"` (the trailing
padding of the final member is omitted; the scan then stops on buffer
exhaustion). -/
def mdEntry : List Nat :=
  tarHeader (strBytes (("doc.md").data)) sizeField10
    ++ strBytes (("0123456789").data)

/-- Archive: a skipped text entry, then a markdown entry. -/
def tarC8buf : List Nat := txtEntry ++ mdEntry

/-- Size field declaring octal `37777776000` = `2^32 - 1024`. -/
def sizeFieldGuardWrap : List Nat := strBytes (("37777776000").data) ++ [0]

/-- Size field declaring octal `40000000000` = `2^32`. -/
def sizeFieldTrunc : List Nat := strBytes (("40000000000").data) ++ [0]

/-- Size field declaring octal `37777777000` = `2^32 - 512`. -/
def sizeFieldSelfLoop : List Nat := strBytes (("37777777000").data) ++ [0]

/-- A 512-byte archive whose only header declares size `2^32 - 1024`:
the padded advance drives the 32-bit cursor to `2^32 - 512`, where the
next guard computation wraps and the header slice panics. -/
def tarOverflowStop : List Nat := tarHeader (strBytes (("x").data)) sizeFieldGuardWrap

/-- A 512-byte archive whose only header is a `.md` member declaring size
`2^32`: the truncated cast makes the content end equal the content start,
so the entry is extracted with empty content and the cursor advances by
512 only. -/
def tarTruncSize : List Nat := tarHeader (strBytes (("big.md").data)) sizeFieldTrunc

/-- A 512-byte archive whose only header declares size `2^32 - 512`: the
wrapped padded advance returns the cursor to the same offset, so the scan
loops forever. -/
def tarSelfLoop : List Nat := tarHeader (strBytes (("x").data)) sizeFieldSelfLoop

section FrontmatterLemmas

/-- If the leading whitespace run of `l` contains no newline, `\s*\n` cannot
match any prefix of `l`. -/
theorem matchWsNl_eq_nil (l : List Char) (h : '\n' ∉ l.takeWhile isWs) :
    matchWsNl l = [] := by
  induction l with
  | nil => rfl
  | cons c t ih =>
    by_cases hws : isWs c
    · have htk : (c :: t).takeWhile isWs = c :: t.takeWhile isWs := by
        simp [List.takeWhile, hws]
      rw [htk] at h
      have hc : c ≠ '\n' := by intro hc; exact h (hc ▸ List.mem_cons_self c _)
      have ht : '\n' ∉ t.takeWhile isWs := fun hm => h (List.mem_cons_of_mem _ hm)
      simp [matchWsNl, hc, hws, ih ht]
    · have hc : c ≠ '\n' := by
        intro hc; exact hws (by rw [hc]; rfl)
      simp [matchWsNl, hc, hws]

/-- Peeling a newline-free whitespace prefix and its terminating newline off
the front of the input: the greedy candidates are those of the remainder,
followed by the remainder itself. -/
theorem matchWsNl_append (w l : List Char)
    (hw : ∀ c ∈ w, isWs c = true ∧ c ≠ '\n') :
    matchWsNl (w ++ '\n' :: l) = matchWsNl l ++ [l] := by
  induction w with
  | nil => simp [matchWsNl]
  | cons c w' ih =>
    obtain ⟨hws, hc⟩ := hw c (List.mem_cons_self c _)
    have ih' := ih (fun d hd => hw d (List.mem_cons_of_mem _ hd))
    simp [matchWsNl, hc, hws, ih']

theorem takeWhile_append_of_ne (l₁ l₂ : List Char)
    (h : l₁.takeWhile isWs ≠ l₁) :
    (l₁ ++ l₂).takeWhile isWs = l₁.takeWhile isWs := by
  induction l₁ with
  | nil => simp [List.takeWhile] at h
  | cons c t ih =>
    by_cases hws : isWs c
    · have h' : t.takeWhile isWs ≠ t := by
        intro he; apply h; simp [List.takeWhile, hws, he]
      simp [List.takeWhile, hws, ih h']
    · simp [List.takeWhile, hws]

theorem nlDashes_not_prefix (c : Char) (b tail : List Char)
    (hb : findSub nlDashes (c :: b) = none) :
    nlDashes.isPrefixOf (c :: (b ++ '\n' :: '-' :: '-' :: '-' :: tail)) = false := by
  match b with
  | [] => simp [nlDashes, List.isPrefixOf]
  | [x] => simp [nlDashes, List.isPrefixOf]
  | [x, y] => simp [nlDashes, List.isPrefixOf]
  | x :: y :: z :: b' =>
    by_cases hp : nlDashes.isPrefixOf (c :: x :: y :: z :: b')
    · rw [findSub, if_pos] at hb
      · exact absurd hb (by simp)
      · exact hp
    · revert hp
      simp only [nlDashes, List.isPrefixOf, List.cons_append]
      intro hp
      simpa using hp

/-- Core of the lazy search: when the captured block contains no interior
`\n---` occurrence, the first close found is the one at the block boundary,
and the body is the head of the greedy candidates after the closing
delimiter. -/
theorem findClose_boundary (block tail r : List Char)
    (hb : findSub nlDashes block = none)
    (ht : (matchWsNl tail).head? = some r) :
    findClose (block ++ '\n' :: '-' :: '-' :: '-' :: tail) = some (block, r) := by
  induction block with
  | nil =>
    have : tryCloseHere ('\n' :: '-' :: '-' :: '-' :: tail) = some r := by
      rw [tryCloseHere, if_pos]
      · simpa using ht
      · simp [nlDashes, List.isPrefixOf]
    simp [findClose, this]
  | cons c b ih =>
    have hb' : findSub nlDashes b = none := by
      rw [findSub] at hb
      split at hb
      · exact absurd hb (by simp)
      · simpa using hb
    have hnp := nlDashes_not_prefix c b tail hb
    have hclose : tryCloseHere (c :: (b ++ '\n' :: '-' :: '-' :: '-' :: tail)) = none := by
      rw [tryCloseHere, if_neg]
      simp [hnp]
    have := ih hb'
    simp only [List.cons_append, findClose, List.append_eq, hclose, this]

end FrontmatterLemmas


/-! ## Claim C1 -/

/-- Claim C1 (amended): for every document of the shape
`"---" ++ ws1 ++ "\n" ++ block ++ "\n" ++ "---" ++ ws2 ++ "\n" ++ rest`
with `ws1`, `ws2` newline-free whitespace, where the enclosed block has a
non-whitespace character before its first newline, contains no occurrence
of newline-`"---"`, and the remaining text has no newline among its
leading whitespace, `parse_frontmatter` detects the metadata block: it
hands exactly `block` to the YAML parser and returns exactly `rest` as the
body, emitting no diagnostic. -/
theorem C1_frontmatter_delimited_split
    (yamlParse : List Char → Except (List Char) PaperMetadata)
    (ws1 ws2 block rest : List Char)
    (h1 : ∀ c ∈ ws1, isWs c = true ∧ c ≠ '\n')
    (h2 : ∀ c ∈ ws2, isWs c = true ∧ c ≠ '\n')
    (h3 : '\n' ∉ block.takeWhile isWs)
    (h4 : block.takeWhile isWs ≠ block)
    (h5 : findSub nlDashes block = none)
    (h6 : '\n' ∉ rest.takeWhile isWs) :
    parse_frontmatter yamlParse
      ('-' :: '-' :: '-' ::
        (ws1 ++ '\n' :: (block ++ '\n' :: '-' :: '-' :: '-' :: (ws2 ++ '\n' :: rest)))) =
      (Except.map (fun m => (m, rest)) (yamlParse block), []) := by
  have hL : '\n' ∉ (block ++ '\n' :: '-' :: '-' :: '-' :: (ws2 ++ '\n' :: rest)).takeWhile isWs := by
    rw [takeWhile_append_of_ne _ _ h4]; exact h3
  have hhead : (matchWsNl (ws2 ++ '\n' :: rest)).head? = some rest := by
    rw [matchWsNl_append _ _ h2, matchWsNl_eq_nil _ h6]; rfl
  have hfc := findClose_boundary block (ws2 ++ '\n' :: rest) rest h5 hhead
  have hmain : fmMatch ('-' :: '-' :: '-' ::
      (ws1 ++ '\n' :: (block ++ '\n' :: '-' :: '-' :: '-' :: (ws2 ++ '\n' :: rest)))) =
      some (block, rest) := by
    simp only [fmMatch]
    rw [matchWsNl_append _ _ h1, matchWsNl_eq_nil _ hL]
    simp only [List.nil_append, firstClose, hfc]
  simp only [parse_frontmatter, hmain]
  cases hyp : yamlParse block <;> simp [Except.map, hyp]

/-- Claim C1 counterexample: three documents of the claimed shape on which
`parse_frontmatter` does not return the decomposition's block and body:
an enclosed `"---"` line makes the lazy group close early; a leading blank
line of the block is absorbed by the greedy opening whitespace; a leading
blank line of the remaining text is absorbed by the greedy closing
whitespace. -/
theorem C1_counterexample :
    (fmMatch (("---\na\n---\nb\n---\nc").data) = some ((("a").data), (("b\n---\nc").data))
      ∧ ("a").data ≠ ("a\n---\nb").data)
  ∧ (fmMatch (("---\n\na\n---\nrest").data) = some ((("a").data), (("rest").data))
      ∧ ("a").data ≠ ("\na").data)
  ∧ (fmMatch (("---\na\n---\n\nxyz").data) = some ((("a").data), (("xyz").data))
      ∧ ("xyz").data ≠ ("\nxyz").data) :=
  ⟨⟨by decide, by decide⟩, ⟨by decide, by decide⟩, ⟨by decide, by decide⟩⟩

/-- Witness for claim C1: a concrete well-behaved document; the
error-carrying YAML collaborator exposes which block was handed over. -/
theorem C1_witness :
    parse_frontmatter (fun l => Except.error l) (("---\ntitle: X\n---\nBody").data) =
      (Except.error (("title: X").data), []) := by
  have h := C1_frontmatter_delimited_split (fun l => Except.error l) [] []
    (("title: X").data) (("Body").data) (by decide) (by decide) (by decide) (by decide)
    (by decide) (by decide)
  exact h

/-! ## Claim C2 -/

/-- Claim C2: a document with no detected metadata block never fails:
`parse_frontmatter` returns the empty metadata (every field absent, empty
passthrough map) with the entire input as body and exactly one non-fatal
diagnostic; whereas when the delimiter pattern matches but the enclosed
block does not parse, `process_paper` surfaces a hard error and leaves the
collection unchanged (no record is produced). -/
theorem C2_missing_vs_malformed_frontmatter :
    (∀ (yamlParse : List Char → Except (List Char) PaperMetadata) (content : List Char),
       fmMatch content = none →
       parse_frontmatter yamlParse content =
         (Except.ok (emptyPaperMetadata, content), [noFrontmatterMsg]))
  ∧ (∀ (yamlParse : List Char → Except (List Char) PaperMetadata)
       (render : List Char → List Char) (now : List Char) (papers : List Paper)
       (filename content yamlContent body e : List Char),
       fmMatch content = some (yamlContent, body) →
       yamlParse yamlContent = Except.error e →
       process_paper yamlParse render now papers filename content =
         (Except.error (processErrMsg e), papers, [processLogMsg filename e])) := by
  constructor
  · intro yamlParse content h
    simp [parse_frontmatter, h]
  · intro yamlParse render now papers filename content yamlContent body e h he
    simp [process_paper, process_single_paper, parse_frontmatter, h, he]

/-- Witness for claim C2: a document without any delimiter pattern is
processed into the empty metadata with one diagnostic, and a document with
a detected block rejected by the YAML collaborator yields a hard error and
leaves the collection unchanged. -/
theorem C2_witness :
    parse_frontmatter (fun _ => Except.error (("bad").data)) (("hello").data) =
      (Except.ok (emptyPaperMetadata, (("hello").data)), [noFrontmatterMsg])
  ∧ process_paper (fun _ => Except.error (("bad").data)) (fun l => l) [] []
      (("f.md").data) (("---\nt: 1\n---\nbody").data) =
      (Except.error (processErrMsg (("bad").data)), [],
        [processLogMsg (("f.md").data) (("bad").data)]) := by
  constructor
  · exact C2_missing_vs_malformed_frontmatter.1 _ _ (by decide)
  · exact C2_missing_vs_malformed_frontmatter.2 _ _ _ _ _ _ (("t: 1").data)
      (("body").data) _ (by decide) rfl

/-! ## Claim C3 -/

theorem isHeadingLine_marker (k : List Char) :
    isHeadingLine ('#' :: '#' :: ' ' :: k) = true := by
  simp [isHeadingLine, List.isPrefixOf]

theorem sectionsGo_skip_pre (pre rest : List (List Char)) (content : List (List Char))
    (acc : List (List Char × List Char))
    (hpre : ∀ l ∈ pre, isHeadingLine l = false) :
    sectionsGo (pre ++ rest) none content acc = sectionsGo rest none content acc := by
  induction pre with
  | nil => rfl
  | cons l pre' ih =>
    have hl := hpre l (List.mem_cons_self l _)
    have ih' := ih (fun x hx => hpre x (List.mem_cons_of_mem _ hx))
    simp [sectionsGo, hl, ih']

theorem sectionsGo_accum (ls rest : List (List Char)) (k : List Char)
    (content : List (List Char)) (acc : List (List Char × List Char))
    (hls : ∀ l ∈ ls, isHeadingLine l = false) :
    sectionsGo (ls ++ rest) (some k) content acc =
      sectionsGo rest (some k) (content ++ ls) acc := by
  induction ls generalizing content with
  | nil => simp
  | cons l ls' ih =>
    have hl := hls l (List.mem_cons_self l _)
    have ih' := ih (content ++ [l]) (fun x hx => hls x (List.mem_cons_of_mem _ hx))
    simp only [List.cons_append, sectionsGo, hl, Bool.false_eq_true, if_false]
    rw [List.append_assoc] at ih'
    simpa using ih'

theorem sectionsGo_flatten (secs : List (List Char × List (List Char)))
    (cur : Option (List Char)) (content : List (List Char))
    (acc : List (List Char × List Char))
    (hsec : ∀ s ∈ secs, ∀ l ∈ s.2, isHeadingLine l = false) :
    sectionsGo (secFlatten secs) cur content acc =
      secs.foldl (fun acc2 s => mapInsert (toLowercase s.1) (rustTrim (joinNl s.2)) acc2)
        (flushSection cur content acc) := by
  induction secs generalizing cur content acc with
  | nil => rfl
  | cons s secs' ih =>
    obtain ⟨k, ls⟩ := s
    have hls : ∀ l ∈ ls, isHeadingLine l = false :=
      fun l hl => hsec (k, ls) (List.mem_cons_self _ _) l hl
    have hsec' : ∀ s ∈ secs', ∀ l ∈ s.2, isHeadingLine l = false :=
      fun s hs => hsec s (List.mem_cons_of_mem _ hs)
    have hflat : secFlatten ((k, ls) :: secs') =
        ('#' :: '#' :: ' ' :: k) :: (ls ++ secFlatten secs') := by
      simp [secFlatten]
    rw [hflat]
    simp only [sectionsGo, isHeadingLine_marker, if_true, List.drop]
    rw [sectionsGo_accum ls (secFlatten secs') _ [] _ hls]
    rw [ih _ _ _ hsec']
    simp [flushSection]

/-- Claim C3: for every body that decomposes as preamble lines (none a
second-level heading line) followed by sections, each a `"## "`-prefixed
heading line and its non-heading content lines, section extraction yields
exactly the insertions, in order, of each section's lowercased heading key
mapped to its content lines rejoined with newlines and trimmed; preamble
lines land in no section, and a later duplicate key overwrites an earlier
one (insertion replaces the existing binding). -/
theorem C3_section_extraction (md : List Char) (pre : List (List Char))
    (secs : List (List Char × List (List Char)))
    (hlines : rustLines md = pre ++ secFlatten secs)
    (hpre : ∀ l ∈ pre, isHeadingLine l = false)
    (hsec : ∀ s ∈ secs, ∀ l ∈ s.2, isHeadingLine l = false) :
    parse_markdown_sections md =
      secs.foldl (fun acc s => mapInsert (toLowercase s.1) (rustTrim (joinNl s.2)) acc) [] := by
  rw [parse_markdown_sections, hlines, sectionsGo_skip_pre _ _ _ _ hpre,
    sectionsGo_flatten _ _ _ _ hsec]
  rfl

/-- Witness for claim C3: a preamble line, two sections with the same
lowercased key (the later overwrites the earlier), content with a blank
line, and trimming. -/
theorem C3_witness : parse_markdown_sections c3md = [((("alpha").data), (("later").data))] := by
  have h := C3_section_extraction c3md [(("intro").data)]
    [((("Alpha").data), [(("line1").data), [], (("line2").data)]),
     ((("Alpha").data), [(("later").data)])]
    (by decide) (by decide) (by decide)
  exact h.trans (by decide)

/-! ## Claim C4 -/

/-- Claim C4 (amended): on the example body, TOC extraction returns
exactly `["Intro", "Methods"]`, and section extraction returns exactly
the two-entry map binding `"table of contents"` to the two item lines and
`"summary"` to `"Hello"`: the heading that introduces the TOC is itself a
second-level heading and therefore also produces a section. -/
theorem C4_toc_example :
    extract_toc c4body = [(("Intro").data), (("Methods").data)]
  ∧ parse_markdown_sections c4body =
      [((("table of contents").data), (("1. **Intro**\n2. **Methods**").data)),
       ((("summary").data), (("Hello").data))] :=
  ⟨by decide, by decide⟩

/-- Claim C4 counterexample: the section map of the example body is not
`{"summary": "Hello"}` alone — it also binds the key
`"table of contents"`. -/
theorem C4_counterexample :
    mapGet (parse_markdown_sections c4body) (("table of contents").data) =
      some (("1. **Intro**\n2. **Methods**").data)
  ∧ mapGet (parse_markdown_sections c4body) (("table of contents").data) ≠ none :=
  ⟨by decide, by decide⟩

/-! ## Claim C5 -/

theorem matchHeading_length_lt (l : List Char) (d : Char) (text after : List Char)
    (h : matchHeading l = some (d, text, after)) : after.length < l.length := by
  match l with
  | [] => simp [matchHeading] at h
  | [a] => simp [matchHeading] at h
  | [a, b] => simp [matchHeading] at h
  | [a, b, c] => simp [matchHeading] at h
  | a :: b :: d0 :: g :: rest =>
    simp only [matchHeading] at h
    split_ifs at h with h1 h2
    rcases hdrop : rest.drop ((rest.takeWhile (fun ch => ch != '<')).length)
        with _ | ⟨e, _ | ⟨f, _ | ⟨g2, _ | ⟨d2, _ | ⟨i, after'⟩⟩⟩⟩⟩ <;>
      rw [hdrop] at h <;> simp at h
    obtain ⟨-, -, -, rfl⟩ := h
    have hlen := congrArg List.length hdrop
    simp [List.length_drop] at hlen
    simp only [List.length_cons]
    omega

theorem addGo_irrel (m : Nat) : ∀ (n : Nat) (l : List Char), l.length ≤ m → l.length ≤ n →
    addGo m l = addGo n l := by
  induction m with
  | zero =>
    intro n l hm _
    have hl : l = [] := List.length_eq_zero.mp (Nat.le_zero.mp hm)
    subst hl
    cases n <;> rfl
  | succ m ih =>
    intro n l hm hn
    cases l with
    | nil => cases n <;> rfl
    | cons c t =>
      cases n with
      | zero => simp at hn
      | succ n' =>
        simp only [addGo]
        cases hmh : matchHeading (c :: t) with
        | none =>
          simp only [hmh]
          have ht : t.length ≤ m := by simp at hm; omega
          have ht' : t.length ≤ n' := by simp at hn; omega
          rw [ih n' t ht ht']
        | some tri =>
          obtain ⟨d, text, after⟩ := tri
          simp only [hmh]
          have hlt := matchHeading_length_lt _ _ _ _ hmh
          simp only [List.length_cons] at hm hn hlt
          rw [ih n' after (by omega) (by omega)]

theorem addHeadingIds_step (l : List Char) (d : Char) (text after : List Char)
    (h : matchHeading l = some (d, text, after)) :
    addHeadingIds l = headingRepl d text ++ addHeadingIds after := by
  cases l with
  | nil => simp [matchHeading] at h
  | cons c t =>
    have hlt := matchHeading_length_lt _ _ _ _ h
    rw [addHeadingIds, addHeadingIds]
    simp only [List.length_cons, addGo, h]
    congr 1
    apply addGo_irrel
    · simp only [List.length_cons] at hlt; omega
    · exact Nat.le_refl _

theorem takeWhile_until_lt (t s : List Char) (h : ∀ c ∈ t, c ≠ '<') :
    (t ++ '<' :: s).takeWhile (fun ch => ch != '<') = t := by
  induction t with
  | nil => simp [List.takeWhile]
  | cons c t' ih =>
    have hc := h c (List.mem_cons_self c _)
    have ih' := ih (fun x hx => h x (List.mem_cons_of_mem _ hx))
    simp [List.takeWhile_cons, hc, ih']

theorem matchHeading_construct (d d2 : Char) (text rest : List Char)
    (hd : d.isDigit = true) (hd2 : d2.isDigit = true) (hne : text ≠ [])
    (hlt : ∀ c ∈ text, c ≠ '<') :
    matchHeading ('<' :: 'h' :: d :: '>' :: (text ++ '<' :: '/' :: 'h' :: d2 :: '>' :: rest)) =
      some (d, text, rest) := by
  have htw : (text ++ '<' :: '/' :: 'h' :: d2 :: '>' :: rest).takeWhile
      (fun ch => ch != '<') = text := takeWhile_until_lt _ _ hlt
  have hdrop : (text ++ '<' :: '/' :: 'h' :: d2 :: '>' :: rest).drop text.length =
      '<' :: '/' :: 'h' :: d2 :: '>' :: rest := by
    exact List.drop_left text _
  have hi : text.isEmpty = false := by
    cases text
    · exact absurd rfl hne
    · rfl
  simp [matchHeading, htw, hdrop, hi, hd, hd2]

/-- Claim C5 (amended): in the post-processed rendered output, every
heading element whose text is nonempty and free of inline markup (no `<`
in the element content) is rewritten to carry an identifier attribute
equal to the slug of its own text — lowercased, spaces replaced by
hyphens, the punctuation set deleted, nothing else altered — and slug
derivation is the fixed function `slugify`, so identical heading texts
receive identical identifiers (no disambiguation); in particular
`slugify("Foo, Bar!") = "foo-bar"` and `slugify("A B") = "a-b"`. -/
theorem C5_heading_anchor_slugs :
    (∀ (d d2 : Char) (text rest : List Char),
       d.isDigit = true → d2.isDigit = true → text ≠ [] → (∀ c ∈ text, c ≠ '<') →
       addHeadingIds ('<' :: 'h' :: d :: '>' ::
           (text ++ '<' :: '/' :: 'h' :: d2 :: '>' :: rest)) =
         ("<h").data ++ [d] ++ (" id=\"").data ++ slugify text ++ ("\">").data ++ text
           ++ ("</h").data ++ [d] ++ (">").data ++ addHeadingIds rest)
  ∧ slugify (("Foo, Bar!").data) = ("foo-bar").data
  ∧ slugify (("A B").data) = ("a-b").data := by
  refine ⟨?_, by decide, by decide⟩
  intro d d2 text rest hd hd2 hne hlt
  rw [addHeadingIds_step _ _ _ _ (matchHeading_construct d d2 text rest hd hd2 hne hlt)]
  simp [headingRepl]

/-- Claim C5 counterexample: a heading element whose content holds inline
markup is not matched by the id-injection pattern `<h(\d)>([^<]+)</h\d>`,
so it receives no identifier attribute at all. -/
theorem C5_counterexample :
    addHeadingIds c5badHtml = c5badHtml
  ∧ findSub (("id=").data) (addHeadingIds c5badHtml) = none :=
  ⟨by decide, by decide⟩

/-- Witness for claim C5: a concrete plain-text heading receives the slug
of its own text as identifier. -/
theorem C5_witness :
    addHeadingIds (("<h2>A B</h2>").data) = ("<h2 id=\"a-b\">A B</h2>").data := by
  have h := C5_heading_anchor_slugs.1 '2' '2' (("A B").data) []
    (by decide) (by decide) (by decide) (by decide)
  exact h.trans (by decide)

/-! ## Claim C6 -/

/-- Claim C6: for every assembled record, the slug is the filename with
one trailing `".md"` removed when present (unchanged otherwise), the title
is the metadata title when present and the slug otherwise, the summary is
the `"summary"` section when present and `"No summary available"`
otherwise, the abstract is the `"abstract"` section when present and empty
otherwise, and the table of contents is the structurally extracted TOC
when nonempty, else the metadata TOC when present, else empty. -/
theorem C6_record_assembly
    (yamlParse : List Char → Except (List Char) PaperMetadata)
    (render : List Char → List Char) (now filename content : List Char)
    (metadata : PaperMetadata) (markdown : List Char) (fmLogs : List (List Char))
    (paper : Paper) (logs : List (List Char))
    (hfm : parse_frontmatter yamlParse content = (Except.ok (metadata, markdown), fmLogs))
    (hp : process_single_paper yamlParse render now filename content = (Except.ok paper, logs)) :
    ((((".md").data).isSuffixOf filename = true → paper.slug ++ ((".md").data) = filename)
      ∧ ((((".md").data).isSuffixOf filename = false) → paper.slug = filename))
  ∧ ((∀ t, metadata.title = some t → paper.title = t)
      ∧ (metadata.title = none → paper.title = paper.slug))
  ∧ ((∀ s, mapGet (parse_markdown_sections markdown) (("summary").data) = some s →
        paper.summary = s)
      ∧ (mapGet (parse_markdown_sections markdown) (("summary").data) = none →
        paper.summary = ("No summary available").data))
  ∧ ((∀ a, mapGet (parse_markdown_sections markdown) (("abstract").data) = some a →
        paper.abstract_text = a)
      ∧ (mapGet (parse_markdown_sections markdown) (("abstract").data) = none →
        paper.abstract_text = []))
  ∧ ((extract_toc markdown ≠ [] → paper.toc = extract_toc markdown)
      ∧ (extract_toc markdown = [] →
          ((∀ ts, metadata.toc = some ts → paper.toc = ts)
            ∧ (metadata.toc = none → paper.toc = [])))) := by
  unfold process_single_paper at hp
  rw [hfm] at hp
  simp only [Prod.mk.injEq, Except.ok.injEq] at hp
  obtain ⟨hpaper, -⟩ := hp
  subst hpaper
  refine ⟨⟨?_, ?_⟩, ⟨?_, ?_⟩, ⟨?_, ?_⟩, ⟨?_, ?_⟩, ⟨?_, ?_⟩⟩
  · intro hs
    obtain ⟨t, rfl⟩ := List.isSuffixOf_iff_suffix.mp hs
    have hlen : (t ++ ((".md").data)).length - ((".md").data).length = t.length := by
      simp
    simp [stripSuffix, hs, hlen, List.take_left]
  · intro hs
    simp [stripSuffix, hs]
  · intro t ht
    simp [ht]
  · intro ht
    simp [ht]
  · intro s hs
    simp [hs]
  · intro hs
    simp [hs]
  · intro a ha
    simp [ha]
  · intro ha
    simp [ha]
  · intro htoc
    simp [htoc]
  · intro htoc
    exact ⟨fun ts hts => by simp [htoc, hts], fun hts => by simp [htoc, hts]⟩

/-- Witness for claim C6: processing `("a.md", "## Summary\nhi")` with no
frontmatter yields the record `c6paper`, whose fields exhibit the fallback
policy: slug `"a"`, title falling back to the slug, summary taken from the
`"summary"` section. -/
theorem C6_witness :
    c6paper.title = c6paper.slug
  ∧ c6paper.slug ++ ((".md").data) = ("a.md").data
  ∧ c6paper.summary = ("hi").data := by
  have h := C6_record_assembly c6yaml (fun _ => []) (("T").data) (("a.md").data) c6content
    emptyPaperMetadata c6content [noFrontmatterMsg] c6paper
    [noFrontmatterMsg, titleWarnMsg (("a.md").data)] rfl rfl
  exact ⟨h.2.1.2 rfl, h.1.1 (by decide), h.2.2.1.1 (("hi").data) (by decide)⟩

/-! ## Step lemmas for the archive scan -/

theorem wrap32_eq_of_lt {n : Nat} (h : n < U32) : wrap32 n = n := Nat.mod_eq_of_lt h

theorem le_tarPaddedSize (size : Nat) : size ≤ tarPaddedSize size := by
  rw [tarPaddedSize]
  omega

/-- A non-wrapping cursor with fewer than 512 bytes remaining: normal stop. -/
theorem tarGo_stop_short (td : List Nat) (fuel offset : Nat)
    (hw : offset + 512 < U32) (h : ¬ (offset + 512 ≤ td.length)) :
    tarGo td (fuel + 1) offset = ([], TarOutcome.done) := by
  rw [tarGo, wrap32_eq_of_lt hw, if_neg h]

/-- A non-wrapping cursor at an all-zero header block: normal stop. -/
theorem tarGo_stop_zero (td : List Nat) (fuel offset : Nat)
    (hw : offset + 512 < U32) (hg : offset + 512 ≤ td.length)
    (hz : bytesAllZero ((td.drop offset).take 512) = true) :
    tarGo td (fuel + 1) offset = ([], TarOutcome.done) := by
  rw [tarGo, wrap32_eq_of_lt hw, if_pos hg, if_neg (by omega)]
  simp only [hz, if_true]

/-- One scan step on a non-terminator header whose cursor arithmetic stays
below `2^32`: no truncation or wrap occurs, the entry is extracted exactly
when it is a nonempty `.md` member whose declared region fits, and the
cursor advances by 512 plus the padded declared size. -/
theorem tarGo_step_nooverflow (td : List Nat) (fuel offset : Nat)
    (hov : offset + 512 + tarPaddedSize (tarSize ((td.drop offset).take 512)) < U32)
    (hg : offset + 512 ≤ td.length)
    (hz : bytesAllZero ((td.drop offset).take 512) = false) :
    tarGo td (fuel + 1) offset =
      ((if 0 < tarSize ((td.drop offset).take 512)
           ∧ mdSuffix (tarFilename ((td.drop offset).take 512)) = true
           ∧ offset + 512 + tarSize ((td.drop offset).take 512) ≤ td.length
        then [(tarFilename ((td.drop offset).take 512),
               (td.drop (offset + 512)).take (tarSize ((td.drop offset).take 512)))]
        else [])
       ++ (tarGo td fuel
             (offset + 512 + tarPaddedSize (tarSize ((td.drop offset).take 512)))).1,
       (tarGo td fuel
         (offset + 512 + tarPaddedSize (tarSize ((td.drop offset).take 512)))).2) := by
  have hsp := le_tarPaddedSize (tarSize ((td.drop offset).take 512))
  have hws : wrap32 (tarSize ((td.drop offset).take 512)) =
      tarSize ((td.drop offset).take 512) := wrap32_eq_of_lt (by omega)
  have hwp : wrap32 (tarPaddedSize (tarSize ((td.drop offset).take 512))) =
      tarPaddedSize (tarSize ((td.drop offset).take 512)) := wrap32_eq_of_lt (by omega)
  have hce : wrap32 (offset + 512 + wrap32 (tarSize ((td.drop offset).take 512))) =
      offset + 512 + tarSize ((td.drop offset).take 512) := by
    rw [hws]; exact wrap32_eq_of_lt (by omega)
  have hnext : wrap32 (offset + 512 + wrap32 (tarPaddedSize (tarSize ((td.drop offset).take 512)))) =
      offset + 512 + tarPaddedSize (tarSize ((td.drop offset).take 512)) := by
    rw [hwp]; exact wrap32_eq_of_lt (by omega)
  rw [tarGo, wrap32_eq_of_lt (show offset + 512 < U32 by omega), if_pos hg,
    if_neg (by omega)]
  simp only [hz, Bool.false_eq_true, if_false]
  by_cases hmd : 0 < tarSize ((td.drop offset).take 512)
      ∧ mdSuffix (tarFilename ((td.drop offset).take 512)) = true
  · rw [if_pos hmd, hce, hnext]
    by_cases hfit : offset + 512 + tarSize ((td.drop offset).take 512) ≤ td.length
    · rw [if_pos hfit, if_neg (by omega), if_pos ⟨hmd.1, hmd.2, hfit⟩]
      have harith : offset + 512 + tarSize ((td.drop offset).take 512) - (offset + 512) =
          tarSize ((td.drop offset).take 512) := by omega
      rw [harith]
      rfl
    · rw [if_neg hfit, if_neg (fun hc => hfit hc.2.2)]
      simp
  · rw [if_neg hmd, hnext, if_neg (fun hc => hmd ⟨hc.1, hc.2.1⟩)]
    simp

/-! ## Claim C7 -/

/-- Claim C7 (amended): provided the cursor arithmetic does not wrap the
32-bit `usize` (`offset + 512 < 2^32`), the archive scan stops without
error as soon as either fewer than 512 bytes remain beyond the cursor or
the next 512-byte header block is entirely zero; in the all-zero case
nothing after that block is scanned.  (Once a declared size has pushed
the cursor to `2^32 - 512` or beyond, the wrapped guard can pass
spuriously and the header slice panics instead of stopping.) -/
theorem C7_archive_scan_stops :
    (∀ (td : List Nat) (fuel offset : Nat),
       offset + 512 < U32 → td.length < offset + 512 →
       tarGo td (fuel + 1) offset = ([], TarOutcome.done))
  ∧ (∀ (td : List Nat) (fuel offset : Nat),
       offset + 512 < U32 →
       bytesAllZero ((td.drop offset).take 512) = true →
       tarGo td (fuel + 1) offset = ([], TarOutcome.done)) := by
  constructor
  · intro td fuel offset hw h
    exact tarGo_stop_short td fuel offset hw (by omega)
  · intro td fuel offset hw h
    by_cases hg : offset + 512 ≤ td.length
    · exact tarGo_stop_zero td fuel offset hw hg h
    · exact tarGo_stop_short td fuel offset hw hg

set_option maxRecDepth 8000 in
/-- Claim C7 counterexample: on a 512-byte buffer whose single header
declares octal size `37777776000` (= `2^32 - 1024`), the cursor reaches
`2^32 - 512`; fewer than 512 bytes remain beyond it, yet the scan does
not stop without error — the wrapped guard passes and the header slice
panics (a debug build already panics at the wrapping addition). -/
theorem C7_counterexample :
    tarGo tarOverflowStop 2 0 = ([], TarOutcome.panicked)
  ∧ tarGo tarOverflowStop 9 0 = ([], TarOutcome.panicked)
  ∧ tarOverflowStop.length < (U32 - 512) + 512 :=
  ⟨by decide, by decide, by decide⟩

set_option maxRecDepth 8000 in
/-- Witness for claim C7: an archive buffer opening with an all-zero
block followed by nonzero bytes yields no entries and stops normally. -/
theorem C7_witness : process_tar_archive tarC7buf 1 = ([], TarOutcome.done) :=
  C7_archive_scan_stops.2 tarC7buf 0 0 (by decide) (by decide)

/-! ## Claim C8 -/

/-- Claim C8 (amended): provided the entry's cursor arithmetic stays
below `2^32` (`offset + 512 + padded size < 2^32`, which bounds the
declared size itself below `2^32`), one scan step on a non-terminator
header behaves as claimed: the entry appears in the output exactly when
its decoded octal size is positive, its decoded name ends with `".md"`,
and its declared content region fits in the buffer (a too-short buffer
skips extraction without error); the cursor advances by 512 bytes plus
the declared size rounded up to a 512-byte multiple; and an empty or
unparsable size field decodes to size zero.  (At sizes of `2^32` and
beyond the truncating `as usize` casts break both the extraction
condition and the advance.) -/
theorem C8_archive_entry_extraction :
    (∀ (td : List Nat) (fuel offset : Nat),
       offset + 512 + tarPaddedSize (tarSize ((td.drop offset).take 512)) < U32 →
       offset + 512 ≤ td.length →
       bytesAllZero ((td.drop offset).take 512) = false →
       tarGo td (fuel + 1) offset =
         ((if 0 < tarSize ((td.drop offset).take 512)
              ∧ mdSuffix (tarFilename ((td.drop offset).take 512)) = true
              ∧ offset + 512 + tarSize ((td.drop offset).take 512) ≤ td.length
           then [(tarFilename ((td.drop offset).take 512),
                  (td.drop (offset + 512)).take (tarSize ((td.drop offset).take 512)))]
           else [])
          ++ (tarGo td fuel
                (offset + 512 + tarPaddedSize (tarSize ((td.drop offset).take 512)))).1,
          (tarGo td fuel
            (offset + 512 + tarPaddedSize (tarSize ((td.drop offset).take 512)))).2))
  ∧ rustFromStrRadix8 [] = none
  ∧ (∀ header : List Nat,
       rustFromStrRadix8 (tarSizeField header) = none → tarSize header = 0) := by
  refine ⟨?_, rfl, ?_⟩
  · intro td fuel offset hov hg hz
    exact tarGo_step_nooverflow td fuel offset hov hg hz
  · intro header h
    simp [tarSize, h]

set_option maxRecDepth 8000 in
/-- Claim C8 counterexample: a `.md` header declaring octal size
`40000000000` (= `2^32`) in a 512-byte buffer.  The declared content
region does not fit and the size is positive, yet the entry is extracted
— with empty content, because `size as usize` truncates to 0 — and the
cursor advances by 512 bytes only, not 512 plus the padded size. -/
theorem C8_counterexample :
    tarGo tarTruncSize 2 0 = ([(strBytes (("big.md").data), [])], TarOutcome.done)
  ∧ ¬ (0 + 512 + tarSize ((tarTruncSize.drop 0).take 512) ≤ tarTruncSize.length)
  ∧ 0 < tarSize ((tarTruncSize.drop 0).take 512)
  ∧ wrap32 (0 + 512 + wrap32 (tarPaddedSize (tarSize ((tarTruncSize.drop 0).take 512)))) = 512 :=
  ⟨by decide, by decide, by decide, by decide⟩

set_option maxRecDepth 30000 in
/-- Witness for claim C8: an archive holding a non-md entry of size 10
followed by a markdown entry of size 10 (all arithmetic far below 2^32):
the scan skips the first entry but still advances past its padded content
region, finds the second header at the correct offset, and extracts
exactly the markdown member. -/
theorem C8_witness :
    tarGo tarC8buf 4 0 = ([(strBytes (("doc.md").data), strBytes (("0123456789").data))],
      TarOutcome.done) := by
  have h := C8_archive_entry_extraction.1 tarC8buf 3 0 (by decide) (by decide) (by decide)
  exact h.trans (by decide)

/-! ## Claim C10 -/

/-- Claim C10 (amended): the archive scan terminates provided no scanned
header wraps the 32-bit cursor — when every in-buffer header satisfies
`offset + 1024 + padded size < 2^32`, each iteration advances the cursor
exactly by 512 bytes plus the non-negative padded content length, the
cursor strictly increases, and one iteration per 512 bytes of buffer
suffices: the result is the same under any iteration bound covering the
buffer.  (A declared size of `2^32 - 512` wraps the advance to zero and
the release build loops forever; a debug build panics.) -/
theorem C10_archive_scan_terminates :
    ∀ (td : List Nat) (m n offset : Nat),
      (∀ off, off ≤ td.length →
        off + 1024 + tarPaddedSize (tarSize ((td.drop off).take 512)) < U32) →
      offset + 512 < U32 →
      td.length - offset ≤ 512 * m → td.length - offset ≤ 512 * n →
      tarGo td (m + 1) offset = tarGo td (n + 1) offset := by
  intro td m
  induction m with
  | zero =>
    intro n offset H hw hm hn
    rw [tarGo_stop_short td 0 offset hw (by omega),
      tarGo_stop_short td n offset hw (by omega)]
  | succ m ih =>
    intro n offset H hw hm hn
    by_cases hg : offset + 512 ≤ td.length
    · cases n with
      | zero => exfalso; omega
      | succ k =>
        have hH := H offset (by omega)
        have hsp := le_tarPaddedSize (tarSize ((td.drop offset).take 512))
        by_cases hz : bytesAllZero ((td.drop offset).take 512) = true
        · rw [tarGo_stop_zero td (m + 1) offset hw hg hz,
            tarGo_stop_zero td (k + 1) offset hw hg hz]
        · have hz' : bytesAllZero ((td.drop offset).take 512) = false := by
            simpa using hz
          rw [tarGo_step_nooverflow td (m + 1) offset (by omega) hg hz',
            tarGo_step_nooverflow td (k + 1) offset (by omega) hg hz']
          have hrec := ih k (offset + 512 + tarPaddedSize (tarSize ((td.drop offset).take 512)))
            H (by omega) (by omega) (by omega)
          rw [hrec]
    · rw [tarGo_stop_short td (m + 1) offset hw hg,
        tarGo_stop_short td n offset hw hg]

set_option maxRecDepth 8000 in
/-- Claim C10 counterexample: a 512-byte buffer whose single header
declares octal size `37777777000` (= `2^32 - 512`).  The wrapped padded
advance returns the cursor to offset 0, so the iteration does not advance
the cursor at all, the loop guard never fails, and the scan is still
running after any number of iterations. -/
theorem C10_counterexample :
    wrap32 (0 + 512 + wrap32 (tarPaddedSize (tarSize ((tarSelfLoop.drop 0).take 512)))) = 0
  ∧ tarGo tarSelfLoop 8 0 = ([], TarOutcome.running)
  ∧ tarGo tarSelfLoop 2 0 = tarGo tarSelfLoop 1 0 :=
  ⟨by decide, by decide, by decide⟩

/-- Witness for claim C10 at concrete bounds: on a 16-byte buffer (all
headers decode to size 0, far from the 32-bit limit) any two sufficient
iteration bounds agree. -/
theorem C10_witness :
    tarGo (List.replicate 16 1) 2 0 = tarGo (List.replicate 16 1) 4 0 :=
  C10_archive_scan_terminates (List.replicate 16 1) 1 3 0 (by decide) (by decide)
    (by decide) (by decide)

/-! ## Claim C9 -/

theorem rustLines_cons (c : Char) (t : List Char)
    (h1 : ∀ t1, c = '\r' → t = '\n' :: t1 → False) (h2 : c ≠ '\n') :
    rustLines (c :: t) = match rustLines t with
      | [] => [[c]]
      | l :: ls => (c :: l) :: ls := by
  rw [rustLines.eq_def]
  split <;> simp_all

theorem rustLines_ne_nil (l : List Char) (h : l ≠ []) : rustLines l ≠ [] := by
  rw [rustLines.eq_def]
  split <;> simp_all
  split <;> simp

theorem findSub_cons_none {needle : List Char} {c : Char} {t : List Char}
    (h : findSub needle (c :: t) = none) : findSub needle t = none := by
  rw [findSub] at h
  split at h
  · exact absurd h (by simp)
  · cases hf : findSub needle t
    · rfl
    · rw [hf] at h
      simp at h

theorem joinNl_singleton (a : List Char) : joinNl [a] = a := rfl

theorem joinNl_cons_cons (a b : List Char) (ls : List (List Char)) :
    joinNl (a :: b :: ls) = a ++ '\n' :: joinNl (b :: ls) := rfl

theorem rustLines_nl_cons (rest : List Char) :
    rustLines ('\n' :: rest) = [] :: rustLines rest := by
  simp [rustLines]

theorem joinNl_rustLines (content : List Char) :
    findSub ['\r', '\n'] content = none → content.getLast? ≠ some '\n' →
    joinNl (rustLines content) = content := by
  induction content using rustLines.induct with
  | case1 => intro _ _; rfl
  | case2 rest ih =>
    intro hcr _
    exfalso
    rw [findSub, if_pos (by simp [List.isPrefixOf])] at hcr
    exact absurd hcr (by simp)
  | case3 rest ih =>
    intro hcr hlast
    rcases rest with _ | ⟨c, t⟩
    · exact absurd rfl hlast
    · rcases hrest : rustLines (c :: t) with _ | ⟨l, ls⟩
      · exact absurd hrest (rustLines_ne_nil _ (by simp))
      · have ih' := ih (findSub_cons_none hcr) (by
          rw [List.getLast?_cons_cons] at hlast
          exact hlast)
        rw [hrest] at ih'
        rw [rustLines_nl_cons, hrest, joinNl_cons_cons, ih']
        rfl
  | case4 c rest h1 h2 hnil ih =>
    have hrest : rest = [] := by
      rcases rest with _ | ⟨x, t⟩
      · rfl
      · exact absurd hnil (rustLines_ne_nil _ (by simp))
    subst hrest
    intro _ _
    rw [rustLines_cons c [] h1 h2]
    rfl
  | case5 c rest h1 h2 l ls hcons ih =>
    intro hcr hlast
    have hne : rest ≠ [] := by
      intro he
      rw [he] at hcons
      exact absurd hcons.symm (by simp [rustLines])
    have ih' := ih (findSub_cons_none hcr) (by
      rcases rest with _ | ⟨x, t⟩
      · exact absurd rfl hne
      · rw [List.getLast?_cons_cons] at hlast
        exact hlast)
    rw [hcons] at ih'
    rw [rustLines_cons c rest h1 h2, hcons]
    show joinNl ((c :: l) :: ls) = c :: rest
    rcases ls with _ | ⟨l2, ls2⟩
    · rw [joinNl_singleton]
      rw [joinNl_singleton] at ih'
      rw [ih']
    · rw [joinNl_cons_cons]
      rw [joinNl_cons_cons] at ih'
      rw [List.cons_append, ih']

theorem rustLines_pre (pre rest : List Char)
    (h : ∀ c ∈ pre, c ≠ '\n' ∧ c ≠ '\r') :
    rustLines (pre ++ '\n' :: rest) = pre :: rustLines rest := by
  induction pre with
  | nil => simp [rustLines_nl_cons]
  | cons c p ih =>
    obtain ⟨hc, hcr⟩ := h c (List.mem_cons_self c _)
    have ih' := ih (fun x hx => (h x (List.mem_cons_of_mem _ hx)))
    rw [List.cons_append,
      rustLines_cons c (p ++ '\n' :: rest) (fun t1 hc1 _ => hcr hc1) hc, ih']

theorem head?_dropWhile_not (p : Char → Bool) (x : List Char) (c : Char)
    (h : (x.dropWhile p).head? = some c) : p c = false := by
  induction x with
  | nil => simp [List.dropWhile] at h
  | cons a t ih =>
    rw [List.dropWhile_cons] at h
    split at h
    · exact ih h
    · simp at h
      subst h
      simp_all

theorem rustTrim_fixed_getLast (l : List Char) (h : rustTrim l = l) :
    l.getLast? ≠ some '\n' := by
  intro hl
  rw [← h] at hl
  rw [rustTrim, trimEnd, List.getLast?_reverse] at hl
  have := head?_dropWhile_not isWs _ _ hl
  simp [isWs] at this

/-- Claim C9 (amended): for every `content` that equals its own trimming,
contains no carriage-return/newline pair, and has no line beginning with
`"## "`, extracting sections from `"## summary\n" ++ content` yields a map
whose `"summary"` entry is exactly `content` again. -/
theorem C9_section_idempotent (content : List Char)
    (htrim : rustTrim content = content)
    (hcr : findSub ['\r', '\n'] content = none)
    (hhead : ∀ l ∈ rustLines content, isHeadingLine l = false) :
    mapGet (parse_markdown_sections ((("## summary\n").data) ++ content)) (("summary").data) =
      some content := by
  have hsplit : (("## summary\n").data) ++ content = (("## summary").data) ++ '\n' :: content :=
    rfl
  rw [hsplit, parse_markdown_sections, rustLines_pre _ _ (by decide)]
  have hh : isHeadingLine (("## summary").data) = true := by decide
  simp only [sectionsGo, hh, if_true]
  have hkey : toLowercase ((("## summary").data).drop 3) = ("summary").data := by decide
  rw [hkey]
  rw [← List.append_nil (rustLines content), sectionsGo_accum _ _ _ _ _ hhead]
  simp only [List.nil_append, sectionsGo, flushSection]
  rw [joinNl_rustLines content hcr (rustTrim_fixed_getLast content htrim), htrim]
  simp [mapGet, mapInsert]

/-- Claim C9 counterexample: the trimmed content `"a\n## b"` is not
returned intact — its second line starts a new section, so the
`"summary"` entry is only `"a"`. -/
theorem C9_counterexample :
    rustTrim (("a\n## b").data) = ("a\n## b").data
  ∧ mapGet (parse_markdown_sections ((("## summary\n").data) ++ (("a\n## b").data)))
      (("summary").data) = some (("a").data)
  ∧ some (("a").data) ≠ some (("a\n## b").data) :=
  ⟨by decide, by decide, by decide⟩

/-- Witness for claim C9 on concrete multi-line trimmed content. -/
theorem C9_witness :
    mapGet (parse_markdown_sections ((("## summary\n").data) ++ (("hello\nworld").data)))
      (("summary").data) = some (("hello\nworld").data) :=
  C9_section_idempotent (("hello\nworld").data) (by decide) (by decide) (by decide)
